import Mathlib

/-!
# Chapter tracker: pagination / cache controller and server handlers

Shallow embedding of the reading-tracker application:

* the Express server's in-memory chapter store and its route handlers
  (`GET /api/chapters`, `PATCH /api/chapters/:id`,
  `POST /api/chapters/:id/notes`);
* the React client's pagination, merge, progress-counter and mutation
  logic (the `App` component: `fetchChapters`, `handleScroll`,
  `handle_toggle_read`, `add_note`), modelled as an event-driven state
  machine on a single cooperative event loop.  React state handlers that
  read the component's render-time closure (`chs` inside
  `handle_toggle_read` and `fetchChapters`) are modelled by recording a
  snapshot of the cache at the moment the handler is created, exactly as
  the closure captures it.
-/

/-- A chapter record, as held by the server's in-memory `chapters` array
and cached by the client. -/
structure Chapter where
  id : Nat
  title : String
  summary : String
  details : String
  slide : String
  cliffnotes : List String
  read : Bool
  notes : List String
deriving Repr, DecidableEq

/-! ## Server handlers (the Express app) -/

/-- `chapters.find(c => c.id === id)`. -/
def findById (store : List Chapter) (i : Nat) : Option Chapter :=
  store.find? (fun c => c.id == i)

/-- In-place mutation `chapter.read = req.body.read` performed by the
PATCH handler on the first array entry whose id matches. -/
def setReadFirst : List Chapter → Nat → Bool → List Chapter
  | [], _, _ => []
  | c :: cs, i, b =>
      if c.id == i then { c with read := b } :: cs
      else c :: setReadFirst cs i b

/-- `PATCH /api/chapters/:id`: assigns `read := b` on the chapter with the
given id and responds with the updated record, or responds 404 (`none`)
when the id is unknown. -/
def patchChapterHandler (store : List Chapter) (i : Nat) (b : Bool) :
    List Chapter × Option Chapter :=
  match findById store i with
  | some c => (setReadFirst store i b, some { c with read := b })
  | none => (store, none)

/-- In-place mutation `chapter.notes.push(req.body.note)` performed by the
notes handler on the first array entry whose id matches. -/
def pushNoteFirst : List Chapter → Nat → String → List Chapter
  | [], _, _ => []
  | c :: cs, i, t =>
      if c.id == i then { c with notes := c.notes ++ [t] } :: cs
      else c :: pushNoteFirst cs i t

/-- `POST /api/chapters/:id/notes`: appends the note to the chapter with
the given id and responds with the updated record, or responds 404
(`none`) when the id is unknown. -/
def postNoteHandler (store : List Chapter) (i : Nat) (t : String) :
    List Chapter × Option Chapter :=
  match findById store i with
  | some c => (pushNoteFirst store i t, some { c with notes := c.notes ++ [t] })
  | none => (store, none)

/-- `GET /api/chapters?page=p&limit=l`: returns the slice
`chapters.slice((p-1)*l, p*l)` (empty when the start index is past the
end) together with `chapters.length` as the reported total. -/
def listChaptersHandler (store : List Chapter) (page limit : Nat) :
    List Chapter × Nat :=
  let start := (page - 1) * limit
  let data := if start < store.length then (store.drop start).take limit else []
  (data, store.length)

/-! ## Client: the App component's state logic -/

/-- `prev.map(c => c.id).includes(i)` / `chs.some(e => e.id === c.id)`:
id-membership test used both by the merge's `existingIds` set and by the
`hasMore` / progress recomputations. -/
def hasId (l : List Chapter) (i : Nat) : Bool :=
  l.any (fun c => c.id == i)

/-- The `setChs` functional update inside `fetchChapters`: append to
`prev` every incoming chapter whose id is not already present. -/
def mergeChs (prev data : List Chapter) : List Chapter :=
  prev ++ data.filter (fun c => !hasId prev c.id)

/-- `list.filter(c => c.read).length`, as an integer (the progress value
can be driven below zero by the `-1` adjustment in
`handle_toggle_read`). -/
def countRead (l : List Chapter) : Int :=
  ((l.filter (fun c => c.read)).length : Int)

/-- An outstanding mutation request, with the render-time closure
snapshot of `chs` that `handle_toggle_read` captured. -/
inductive PendingMut where
  | toggle (snap : List Chapter) (i : Nat) (currRead : Bool)
  | note (i : Nat) (txt : String)
deriving Repr, DecidableEq

/-- The App component's state: `chs`, `load`, `pg`, `has_more`, `prog`,
`err_msg`, plus the outstanding network requests.  A pending page fetch
carries the closure snapshot of `chs` seen by `fetchChapters`. -/
structure AppState where
  chs : List Chapter
  load : Bool
  pg : Nat
  hasMore : Bool
  prog : Int
  errMsg : Option String
  pendingFetches : List (Nat × List Chapter)
  pendingMuts : List PendingMut
deriving Repr, DecidableEq

/-- Client state together with the server's store (`chapters` array) and
the client's hardcoded page `limit`. -/
structure Sys where
  server : List Chapter
  limit : Nat
  app : AppState
deriving Repr, DecidableEq

/-- Session start: `useState` initial values, with the mount effect's
`fetchChapters(1)` already outstanding (closure snapshot `[]`). -/
def initSys (server : List Chapter) (limit : Nat) : Sys :=
  { server := server, limit := limit,
    app := { chs := [], load := true, pg := 1, hasMore := true, prog := 0,
             errMsg := none, pendingFetches := [(1, [])], pendingMuts := [] } }

/-- Events of the cooperative event loop: UI triggers and network
completions. -/
inductive Event where
  | scroll
  | fetchOk
  | fetchFail
  | toggleClick (i : Nat) (currRead : Bool)
  | noteClick (i : Nat) (txt : String)
  | mutOk
  | mutFail
deriving Repr, DecidableEq

/-- One atomic handler execution.

* `scroll`: `handleScroll` past the threshold — if `has_more && !load`,
  increments `pg`, upon which the `[pg]` effect runs `fetchChapters(pg)`
  (sets `load := true` and issues the request, capturing `chs`).  This
  fuses the listener's guard with the deferred `[pg]` effect into one
  atomic transition, i.e. the tight schedule in which each commit's
  effects run before the next scroll event; the refined `sstep` machine
  further below separates the two and exposes the window in which the
  guard reads a stale closure.
* `fetchOk` / `fetchFail`: resolution of the outstanding page request
  (success applies the merge, `hasMore` and `prog` recomputations from
  the captured closure; failure sets `err_msg`; both run the `finally`
  `setLoad(false)`).
* `toggleClick i curr`: `handle_toggle_read(i, curr)` — unconditionally
  issues the PATCH, capturing the current `chs` closure.
* `noteClick i txt`: `add_note(i, txt)` — returns immediately when the
  text is falsy (the empty string), else issues the POST.
* `mutOk` / `mutFail`: resolution of the oldest outstanding mutation;
  on success the server processes the request and the client applies the
  `setChs` replacement (and, for toggles, the `setProg` adjustment); a
  404 response or a transport failure takes the `catch` path. -/
def step (s : Sys) : Event → Sys
  | Event.scroll =>
      if s.app.hasMore && !s.app.load then
        { s with app := { s.app with
            pg := s.app.pg + 1,
            load := true,
            pendingFetches := s.app.pendingFetches ++ [(s.app.pg + 1, s.app.chs)] } }
      else s
  | Event.fetchOk =>
      match s.app.pendingFetches with
      | [] => s
      | (p, snap) :: rest =>
          let res := listChaptersHandler s.server p s.limit
          { s with app := { s.app with
              chs := mergeChs s.app.chs res.1,
              hasMore :=
                decide (snap.length +
                  (res.1.filter (fun c => !hasId snap c.id)).length < res.2),
              prog := countRead (mergeChs snap res.1),
              load := false,
              pendingFetches := rest } }
  | Event.fetchFail =>
      match s.app.pendingFetches with
      | [] => s
      | _ :: rest =>
          { s with app := { s.app with
              errMsg := some "Failed to fetch chaps",
              load := false,
              pendingFetches := rest } }
  | Event.toggleClick i curr =>
      { s with app := { s.app with
          pendingMuts := s.app.pendingMuts ++ [PendingMut.toggle s.app.chs i curr] } }
  | Event.noteClick i txt =>
      if txt == "" then s
      else
        { s with app := { s.app with
            pendingMuts := s.app.pendingMuts ++ [PendingMut.note i txt] } }
  | Event.mutOk =>
      match s.app.pendingMuts with
      | [] => s
      | PendingMut.toggle snap i curr :: rest =>
          match patchChapterHandler s.server i (!curr) with
          | (server2, some upd) =>
              { server := server2, limit := s.limit,
                app := { s.app with
                  chs := s.app.chs.map (fun c => if c.id == i then upd else c),
                  prog := countRead snap + (if curr then -1 else 1),
                  pendingMuts := rest } }
          | (server2, none) =>
              { server := server2, limit := s.limit,
                app := { s.app with
                  errMsg := some "Failed to toggle read",
                  pendingMuts := rest } }
      | PendingMut.note i txt :: rest =>
          match postNoteHandler s.server i txt with
          | (server2, some upd) =>
              { server := server2, limit := s.limit,
                app := { s.app with
                  chs := s.app.chs.map (fun c => if c.id == i then upd else c),
                  pendingMuts := rest } }
          | (server2, none) =>
              { server := server2, limit := s.limit,
                app := { s.app with
                  errMsg := some "Failed to add note",
                  pendingMuts := rest } }
  | Event.mutFail =>
      match s.app.pendingMuts with
      | [] => s
      | PendingMut.toggle _ _ _ :: rest =>
          { s with app := { s.app with
              errMsg := some "Failed to toggle read",
              pendingMuts := rest } }
      | PendingMut.note _ _ :: rest =>
          { s with app := { s.app with
              errMsg := some "Failed to add note",
              pendingMuts := rest } }

/-- Run a list of events from a state. -/
def run (s : Sys) : List Event → Sys
  | [] => s
  | e :: es => run (step s e) es

/-- The state reached from session start by a given event sequence. -/
def reach (server : List Chapter) (limit : Nat) (evs : List Event) : Sys :=
  run (initSys server limit) evs

/-- A bare chapter used in concrete scenarios. -/
def mkCh (i : Nat) (r : Bool) : Chapter :=
  { id := i, title := "", summary := "", details := "", slide := "",
    cliffnotes := [], read := r, notes := [] }

example : (reach [mkCh 1 false, mkCh 2 false] 5 [Event.fetchOk]).app.chs =
    [mkCh 1 false, mkCh 2 false] := by decide

example : (reach [mkCh 1 false, mkCh 2 false] 1 [Event.fetchOk]).app.hasMore = true := by
  decide

/-! ## Basic lemmas about the merge and the handlers -/

theorem hasId_eq_true_iff {l : List Chapter} {i : Nat} :
    hasId l i = true ↔ i ∈ l.map Chapter.id := by
  constructor
  · intro h
    rcases List.any_eq_true.mp h with ⟨c, hc, hb⟩
    exact List.mem_map.mpr ⟨c, hc, by simpa using hb⟩
  · intro h
    rcases List.mem_map.mp h with ⟨c, hc, rfl⟩
    exact List.any_eq_true.mpr ⟨c, hc, by simp⟩

theorem hasId_eq_false_iff {l : List Chapter} {i : Nat} :
    hasId l i = false ↔ i ∉ l.map Chapter.id := by
  rw [← Bool.not_eq_true, not_iff_not, hasId_eq_true_iff]

theorem mergeChs_nil_left (P : List Chapter) : mergeChs [] P = P := by
  simp [mergeChs, hasId]

/-- When no incoming id is already cached, the merge is a plain append. -/
theorem mergeChs_eq_append {A P : List Chapter}
    (h : ∀ c ∈ P, hasId A c.id = false) : mergeChs A P = A ++ P := by
  unfold mergeChs
  congr 1
  rw [List.filter_eq_self]
  intro c hc
  simp [h c hc]

/-- Ids of the merge: the cached ids followed by the genuinely new ids. -/
theorem map_id_mergeChs (A P : List Chapter) :
    (mergeChs A P).map Chapter.id =
      A.map Chapter.id ++ (P.filter (fun c => !hasId A c.id)).map Chapter.id := by
  simp [mergeChs]

/-- The merge never introduces a duplicate id. -/
theorem nodup_map_id_mergeChs {A P : List Chapter}
    (hA : (A.map Chapter.id).Nodup) (hP : (P.map Chapter.id).Nodup) :
    ((mergeChs A P).map Chapter.id).Nodup := by
  rw [map_id_mergeChs, List.nodup_append]
  refine ⟨hA, ?_, ?_⟩
  · exact ((List.filter_sublist P).map Chapter.id).nodup hP
  · intro i hiA hiF
    rcases List.mem_map.mp hiF with ⟨c, hc, rfl⟩
    rcases List.mem_filter.mp hc with ⟨-, hnot⟩
    rw [Bool.not_eq_true', hasId_eq_false_iff] at hnot
    exact hnot hiA

/-- Merging the same page twice is the same as merging it once. -/
theorem mergeChs_idem (A P : List Chapter) :
    mergeChs (mergeChs A P) P = mergeChs A P := by
  unfold mergeChs
  rw [List.append_right_eq_self, List.filter_eq_nil_iff]
  intro c hc
  have h1 : hasId (A ++ List.filter (fun c => !hasId A c.id) P) c.id = true := by
    rw [hasId_eq_true_iff, List.map_append, List.mem_append]
    by_cases h : c.id ∈ (A.map Chapter.id)
    · exact Or.inl h
    · refine Or.inr (List.mem_map.mpr ⟨c, List.mem_filter.mpr ⟨hc, ?_⟩, rfl⟩)
      rw [Bool.not_eq_true', hasId_eq_false_iff]
      exact h
  simp [h1]

/-- A successful `find` returns a chapter bearing the requested id. -/
theorem findById_id {store : List Chapter} {i : Nat} {c : Chapter}
    (h : findById store i = some c) : c.id = i := by
  have := List.find?_some h
  simpa using this

/-- The PATCH mutation rewrites `read` only; the stored ids are untouched. -/
theorem map_id_setReadFirst (store : List Chapter) (i : Nat) (b : Bool) :
    (setReadFirst store i b).map Chapter.id = store.map Chapter.id := by
  induction store with
  | nil => rfl
  | cons c cs ih =>
      unfold setReadFirst
      by_cases h : c.id == i
      · simp [h]
      · simp [h, ih]

/-- The note mutation appends to `notes` only; the stored ids are untouched. -/
theorem map_id_pushNoteFirst (store : List Chapter) (i : Nat) (t : String) :
    (pushNoteFirst store i t).map Chapter.id = store.map Chapter.id := by
  induction store with
  | nil => rfl
  | cons c cs ih =>
      unfold pushNoteFirst
      by_cases h : c.id == i
      · simp [h]
      · simp [h, ih]

/-- The client-side reconciliation `prev.map(c => c.id === i ? upd : c)`
leaves the id sequence unchanged whenever the replacement record bears
the id it replaces. -/
theorem map_id_replace (l : List Chapter) (i : Nat) (upd : Chapter)
    (hupd : upd.id = i) :
    (l.map (fun c => if c.id == i then upd else c)).map Chapter.id =
      l.map Chapter.id := by
  induction l with
  | nil => rfl
  | cons c cs ih =>
      simp only [List.map_cons]
      rw [ih]
      by_cases h : c.id == i
      · have hc : c.id = i := by simpa using h
        rw [if_pos h, hupd, hc]
      · rw [if_neg h]

/-! ## Claim C3: merge is idempotent and order-preserving -/

/-- C3: for every accumulated sequence `A` with unique ids and every
incoming page `P`, the `setChs` merge yields `A` followed by exactly the
chapters of `P` whose id is not in `A`, in `P`'s original order, and
merging the same page a second time changes nothing. -/
theorem merge_idempotent_order_preserving (A P : List Chapter)
    (hA : (A.map Chapter.id).Nodup) :
    mergeChs A P = A ++ P.filter (fun c => decide (c.id ∉ A.map Chapter.id))
    ∧ mergeChs (mergeChs A P) P = mergeChs A P := by
  constructor
  · unfold mergeChs
    congr 1
    apply List.filter_congr
    intro c hc
    by_cases h : c.id ∈ A.map Chapter.id
    · simp [hasId_eq_true_iff.mpr h, h]
    · simp [hasId_eq_false_iff.mpr h, h]
  · exact mergeChs_idem A P

/-- Witness for C3 at a concrete overlapping page. -/
theorem merge_idempotent_order_preserving_witness :
    (mergeChs [mkCh 1 false] [mkCh 1 true, mkCh 2 false] =
      [mkCh 1 false] ++ [mkCh 1 true, mkCh 2 false].filter
        (fun c => decide (c.id ∉ [mkCh 1 false].map Chapter.id)))
    ∧ mergeChs (mergeChs [mkCh 1 false] [mkCh 1 true, mkCh 2 false])
        [mkCh 1 true, mkCh 2 false] =
      mergeChs [mkCh 1 false] [mkCh 1 true, mkCh 2 false] :=
  merge_idempotent_order_preserving [mkCh 1 false] [mkCh 1 true, mkCh 2 false]
    (by decide)

/-! ## Claim C2: the accumulated cache never holds two entries with one id -/

/-- Every page the server returns is a slice of its store. -/
theorem listChaptersHandler_fst_sublist (store : List Chapter) (p l : Nat) :
    (listChaptersHandler store p l).1.Sublist store := by
  unfold listChaptersHandler
  by_cases h : (p - 1) * l < store.length
  · simp only [if_pos h]
    exact (List.take_sublist _ _).trans (List.drop_sublist _ _)
  · simp only [if_neg h]
    exact List.nil_sublist store

/-- One handler execution preserves uniqueness of ids, in the server
store and in the client cache alike. -/
theorem step_preserves_nodup {s : Sys}
    (hs : (s.server.map Chapter.id).Nodup)
    (hc : (s.app.chs.map Chapter.id).Nodup) (e : Event) :
    ((step s e).server.map Chapter.id).Nodup
    ∧ (((step s e).app.chs.map Chapter.id).Nodup) := by
  cases e with
  | scroll =>
      by_cases h : s.app.hasMore && !s.app.load
      · simp [step, h, hs, hc]
      · simp [step, h, hs, hc]
  | fetchOk =>
      rcases hp : s.app.pendingFetches with - | ⟨⟨p, snap⟩, rest⟩
      · simp [step, hp, hs, hc]
      · have hdata : (((listChaptersHandler s.server p s.limit).1.map Chapter.id).Nodup) :=
          ((listChaptersHandler_fst_sublist s.server p s.limit).map Chapter.id).nodup hs
        simp only [step, hp]
        exact ⟨hs, nodup_map_id_mergeChs hc hdata⟩
  | fetchFail =>
      rcases hp : s.app.pendingFetches with - | ⟨pf, rest⟩
      · simp [step, hp, hs, hc]
      · simp [step, hp, hs, hc]
  | toggleClick i curr => simpa [step] using ⟨hs, hc⟩
  | noteClick i txt =>
      by_cases h : txt == ""
      · simp [step, h, hs, hc]
      · simp [step, h, hs, hc]
  | mutOk =>
      rcases hm : s.app.pendingMuts with - | ⟨pm, rest⟩
      · simp [step, hm, hs, hc]
      · cases pm with
        | toggle snap i curr =>
            rcases hfind : findById s.server i with - | c
            · simp [step, hm, patchChapterHandler, hfind, hs, hc]
            · have hid : c.id = i := findById_id hfind
              simp only [step, hm, patchChapterHandler, hfind]
              constructor
              · rw [map_id_setReadFirst]; exact hs
              · rw [map_id_replace s.app.chs i { c with read := !curr } hid]
                exact hc
        | note i txt =>
            rcases hfind : findById s.server i with - | c
            · simp [step, hm, postNoteHandler, hfind, hs, hc]
            · have hid : c.id = i := findById_id hfind
              simp only [step, hm, postNoteHandler, hfind]
              constructor
              · rw [map_id_pushNoteFirst]; exact hs
              · rw [map_id_replace s.app.chs i { c with notes := c.notes ++ [txt] } hid]
                exact hc
  | mutFail =>
      rcases hm : s.app.pendingMuts with - | ⟨pm, rest⟩
      · simp [step, hm, hs, hc]
      · cases pm <;> simp [step, hm, hs, hc]

/-- A whole event run preserves uniqueness of ids. -/
theorem run_preserves_nodup (evs : List Event) :
    ∀ s : Sys, (s.server.map Chapter.id).Nodup →
      (s.app.chs.map Chapter.id).Nodup →
      ((run s evs).server.map Chapter.id).Nodup
      ∧ (((run s evs).app.chs.map Chapter.id).Nodup) := by
  induction evs with
  | nil => intro s hs hc; exact ⟨hs, hc⟩
  | cons e es ih =>
      intro s hs hc
      have h := step_preserves_nodup hs hc e
      exact ih (step s e) h.1 h.2

/-- C2: when the store's ids are unique, no reachable controller state
holds two cached entries with the same id; and the bare merge, folded
over an arbitrary sequence of incoming pages — repeated and overlapping
pages included — never produces a duplicate id. -/
theorem no_duplicate_ids (server : List Chapter) (limit : Nat)
    (hs : (server.map Chapter.id).Nodup) :
    (∀ evs : List Event, (((reach server limit evs).app.chs.map Chapter.id).Nodup))
    ∧ (∀ (A : List Chapter) (pages : List (List Chapter)),
        (A.map Chapter.id).Nodup →
        (∀ P ∈ pages, (P.map Chapter.id).Nodup) →
        (((pages.foldl mergeChs A).map Chapter.id).Nodup)) := by
  constructor
  · intro evs
    exact (run_preserves_nodup evs (initSys server limit) hs (by simp [initSys])).2
  · intro A pages
    induction pages generalizing A with
    | nil => intro hA _; exact hA
    | cons P ps ih =>
        intro hA hps
        exact ih (mergeChs A P)
          (nodup_map_id_mergeChs hA (hps P (List.mem_cons_self P ps)))
          (fun Q hQ => hps Q (List.mem_cons_of_mem P hQ))

/-- Witness for C2: a two-chapter store paged one at a time, and a fold
over the same page delivered twice. -/
theorem no_duplicate_ids_witness :
    (((reach [mkCh 1 false, mkCh 2 false] 1
        [Event.fetchOk, Event.scroll, Event.fetchOk]).app.chs.map Chapter.id).Nodup)
    ∧ ((([[mkCh 1 true], [mkCh 1 true]].foldl mergeChs []).map Chapter.id).Nodup) :=
  ⟨(no_duplicate_ids [mkCh 1 false, mkCh 2 false] 1 (by decide)).1
      [Event.fetchOk, Event.scroll, Event.fetchOk],
   (no_duplicate_ids [mkCh 1 false, mkCh 2 false] 1 (by decide)).2
      [] [[mkCh 1 true], [mkCh 1 true]] (by decide) (by decide)⟩

/-! ## Claim C1: the derived read counter

`handle_toggle_read` assigns the progress counter incrementally
(`setProg(chs.filter(c => c.read).length + (!currRead ? 1 : -1))`) from
the render-time closure `chs`, not by a full recount of the updated
cache.  With two toggles of different chapters outstanding at once —
which the UI permits — both handlers adjust from the same stale
snapshot and the counter desynchronises from the cache. -/

/-- C1, evaluated at the failing input: store `[1 unread, 2 unread]`,
page 1 fetched, toggles of chapter 1 and chapter 2 both issued before
either resolves, then both succeed.  The code leaves `prog = 1` while
the accumulated cache holds two chapters with `read = true`, so the
derived counter differs from the full recount. -/
theorem counter_drift_at_interleaved_toggles :
    (reach [mkCh 1 false, mkCh 2 false] 5
      [Event.fetchOk, Event.toggleClick 1 false, Event.toggleClick 2 false,
       Event.mutOk, Event.mutOk]).app.prog = 1
    ∧ countRead (reach [mkCh 1 false, mkCh 2 false] 5
        [Event.fetchOk, Event.toggleClick 1 false, Event.toggleClick 2 false,
         Event.mutOk, Event.mutOk]).app.chs = 2
    ∧ (reach [mkCh 1 false, mkCh 2 false] 5
        [Event.fetchOk, Event.toggleClick 1 false, Event.toggleClick 2 false,
         Event.mutOk, Event.mutOk]).app.prog ≠
      countRead (reach [mkCh 1 false, mkCh 2 false] 5
        [Event.fetchOk, Event.toggleClick 1 false, Event.toggleClick 2 false,
         Event.mutOk, Event.mutOk]).app.chs := by
  refine ⟨by decide, by decide, by decide⟩

/-! ## Claim C5: fetch gate exclusivity

The coarse machine's `Event.scroll` fuses the listener guard, the `pg`
increment and the fetch issuance into one atomic transition; the source
separates them.  The scroll listener only runs `setPg(prev => prev + 1)`
behind `has_more && !load` read from the closure of the render at which
the listener was registered (the `[has_more, load]` effect); the fetch
itself — and `setLoad(true)` — happen only when the deferred `[pg]`
effect later runs `fetchChapters(pg)`, unconditionally.  The refined
model below makes the registered listener closure and the deferred
effect queue explicit, exposing the window in which a second scroll
trigger still sees `load = false`. -/

/-- Client state for the refined scroll/pagination path.
`listenerHasMore` / `listenerLoad` are the `has_more` and `load` values
captured by the currently registered scroll listener; `effectQueue`
holds, per commit that changed `pg`, the pending `[pg]` effect with the
`pg` and `chs` of that commit's closure. -/
structure ScrollState where
  chs : List Chapter
  load : Bool
  pg : Nat
  hasMore : Bool
  listenerHasMore : Bool
  listenerLoad : Bool
  effectQueue : List (Nat × List Chapter)
  pendingFetches : List (Nat × List Chapter)
deriving Repr, DecidableEq

/-- Refined client state together with the server store and page limit. -/
structure ScrollSys where
  server : List Chapter
  limit : Nat
  app : ScrollState
deriving Repr, DecidableEq

/-- Events of the refined scroll path. -/
inductive SEvent where
  | trigger
  | effectRun
  | reregister
  | fetchOk
  | fetchFail
deriving Repr, DecidableEq

/-- One step of the refined scroll path.

* `trigger`: the scroll listener fires past the threshold.  It tests
  `has_more && !load` **as captured by the registered listener's
  closure** and, if the guard passes, runs `setPg(prev => prev + 1)` —
  which schedules the `[pg]` effect for the new commit.  Nothing else:
  `load` is not set here.
* `effectRun`: the oldest scheduled `[pg]` effect executes
  `fetchChapters(pg)` — with no guard of its own — setting
  `load := true` and issuing the page request with its commit's `chs`.
* `reregister`: the `[has_more, load]` effect re-registers the scroll
  listener, refreshing the closure it reads the guard from.
* `fetchOk` / `fetchFail`: resolution of the oldest outstanding page
  request, as in the coarse machine (merge, `hasMore` from the captured
  closure, `finally setLoad(false)`). -/
def sstep (s : ScrollSys) : SEvent → ScrollSys
  | SEvent.trigger =>
      if s.app.listenerHasMore && !s.app.listenerLoad then
        { s with app := { s.app with
            pg := s.app.pg + 1,
            effectQueue := s.app.effectQueue ++ [(s.app.pg + 1, s.app.chs)] } }
      else s
  | SEvent.effectRun =>
      match s.app.effectQueue with
      | [] => s
      | (p, snap) :: rest =>
          { s with app := { s.app with
              load := true,
              effectQueue := rest,
              pendingFetches := s.app.pendingFetches ++ [(p, snap)] } }
  | SEvent.reregister =>
      { s with app := { s.app with
          listenerHasMore := s.app.hasMore,
          listenerLoad := s.app.load } }
  | SEvent.fetchOk =>
      match s.app.pendingFetches with
      | [] => s
      | (p, snap) :: rest =>
          let res := listChaptersHandler s.server p s.limit
          { s with app := { s.app with
              chs := mergeChs s.app.chs res.1,
              hasMore :=
                decide (snap.length +
                  (res.1.filter (fun c => !hasId snap c.id)).length < res.2),
              load := false,
              pendingFetches := rest } }
  | SEvent.fetchFail =>
      match s.app.pendingFetches with
      | [] => s
      | _ :: rest =>
          { s with app := { s.app with load := false, pendingFetches := rest } }

/-- Run a list of refined events. -/
def srun (s : ScrollSys) : List SEvent → ScrollSys
  | [] => s
  | e :: es => srun (sstep s e) es

/-- Session start for the refined path: the mount commit registered the
listener with the initial `has_more = true`, `load = true` closure, and
the mount `[pg]` effect has already issued `fetchChapters(1)`. -/
def initScrollSys (server : List Chapter) (limit : Nat) : ScrollSys :=
  { server := server, limit := limit,
    app := { chs := [], load := true, pg := 1, hasMore := true,
             listenerHasMore := true, listenerLoad := true,
             effectQueue := [], pendingFetches := [(1, [])] } }

/-- C5 counterexample: page 1 resolves and the listener re-registers
(`load = false` in its closure); two scroll triggers then arrive before
the first `[pg]` effect runs — both pass the stale `!load` guard — and
the two deferred effects issue fetches for pages 2 and 3.  Two page
requests are outstanding at once, and the double trigger produced two
Store calls, not one. -/
theorem double_scroll_two_outstanding_fetches :
    (srun (initScrollSys [mkCh 1 false, mkCh 2 false, mkCh 3 false] 1)
      [SEvent.fetchOk, SEvent.reregister, SEvent.trigger, SEvent.trigger,
       SEvent.effectRun, SEvent.effectRun]).app.pendingFetches.map Prod.fst =
      [2, 3]
    ∧ (srun (initScrollSys [mkCh 1 false, mkCh 2 false, mkCh 3 false] 1)
        [SEvent.fetchOk, SEvent.reregister, SEvent.trigger, SEvent.trigger,
         SEvent.effectRun, SEvent.effectRun]).app.pendingFetches.length = 2 :=
  ⟨by decide, by decide⟩

/-- C5 amended: the scroll trigger is a no-op whenever the `load` the
registered listener observes is true or its observed `has_more` is
false; but the guard is only as fresh as that closure and the fetch is
issued by the deferred unguarded `[pg]` effect, so two triggers in
immediate succession — before the first effect runs or the listener
re-registers — both pass, and after the effects run two consecutive
page requests are outstanding. -/
theorem scroll_guard_stale_closure (s : ScrollSys) :
    ((s.app.listenerLoad = true ∨ s.app.listenerHasMore = false) →
      sstep s SEvent.trigger = s)
    ∧ (s.app.listenerLoad = false → s.app.listenerHasMore = true →
        s.app.effectQueue = [] →
        (srun s [SEvent.trigger, SEvent.trigger, SEvent.effectRun,
            SEvent.effectRun]).app.pendingFetches =
          s.app.pendingFetches ++
            [(s.app.pg + 1, s.app.chs), (s.app.pg + 2, s.app.chs)]) := by
  constructor
  · rintro (hl | hm)
    · simp [sstep, hl]
    · simp [sstep, hm]
  · intro hl hm hq
    have hg : (s.app.listenerHasMore && !s.app.listenerLoad) = true := by
      rw [hl, hm]; rfl
    simp [srun, sstep, hg, hq]

/-- Witness for the amended C5 at the concrete post-page-1 state. -/
theorem scroll_guard_stale_closure_witness :
    (srun (srun (initScrollSys [mkCh 1 false, mkCh 2 false, mkCh 3 false] 1)
        [SEvent.fetchOk, SEvent.reregister])
      [SEvent.trigger, SEvent.trigger, SEvent.effectRun,
        SEvent.effectRun]).app.pendingFetches =
      (srun (initScrollSys [mkCh 1 false, mkCh 2 false, mkCh 3 false] 1)
        [SEvent.fetchOk, SEvent.reregister]).app.pendingFetches ++
        [((srun (initScrollSys [mkCh 1 false, mkCh 2 false, mkCh 3 false] 1)
            [SEvent.fetchOk, SEvent.reregister]).app.pg + 1,
          (srun (initScrollSys [mkCh 1 false, mkCh 2 false, mkCh 3 false] 1)
            [SEvent.fetchOk, SEvent.reregister]).app.chs),
         ((srun (initScrollSys [mkCh 1 false, mkCh 2 false, mkCh 3 false] 1)
            [SEvent.fetchOk, SEvent.reregister]).app.pg + 2,
          (srun (initScrollSys [mkCh 1 false, mkCh 2 false, mkCh 3 false] 1)
            [SEvent.fetchOk, SEvent.reregister]).app.chs)] :=
  (scroll_guard_stale_closure
    (srun (initScrollSys [mkCh 1 false, mkCh 2 false, mkCh 3 false] 1)
      [SEvent.fetchOk, SEvent.reregister])).2 (by decide) (by decide) (by decide)

/-! ## Claim C4: add-note rejection

`add_note` only tests JavaScript falsiness (`if (!note_txt) return`), so
the sole rejected text is the empty string; whitespace-only text is sent
to the Store and appended verbatim. -/

/-- C4 counterexample: `addNote(5, "   ")` — a text that is empty after
trimming — issues a Store call and appends the whitespace note to
chapter 5, on the server and in the cache alike. -/
theorem add_note_whitespace_not_rejected :
    "   ".toList.all (fun ch => ch.isWhitespace) = true
    ∧ (reach [mkCh 5 false] 5
        [Event.fetchOk, Event.noteClick 5 "   "]).app.pendingMuts.length = 1
    ∧ (reach [mkCh 5 false] 5
        [Event.fetchOk, Event.noteClick 5 "   ", Event.mutOk]).server =
      [{ mkCh 5 false with notes := ["   "] }]
    ∧ (reach [mkCh 5 false] 5
        [Event.fetchOk, Event.noteClick 5 "   ", Event.mutOk]).app.chs =
      [{ mkCh 5 false with notes := ["   "] }] :=
  ⟨by decide, by decide, by decide, by decide⟩

/-- C4 amended: `addNote` is a no-op with no Store call exactly when the
text is the empty string; any other text — whitespace included — issues
the Store call. -/
theorem add_note_empty_rejected (s : Sys) (i : Nat) (txt : String) :
    (step s (Event.noteClick i "") = s)
    ∧ (txt ≠ "" →
        (step s (Event.noteClick i txt)).app.pendingMuts =
          s.app.pendingMuts ++ [PendingMut.note i txt]) := by
  constructor
  · simp [step]
  · intro ht
    have hb : (txt == "") = false := beq_eq_false_iff_ne.mpr ht
    simp [step, hb]

/-- Witness for the amended C4 at the empty and a whitespace text. -/
theorem add_note_empty_rejected_witness :
    (step (initSys [] 5) (Event.noteClick 5 "") = initSys [] 5)
    ∧ (step (initSys [] 5) (Event.noteClick 5 "   ")).app.pendingMuts =
        (initSys [] 5).app.pendingMuts ++ [PendingMut.note 5 "   "] :=
  ⟨(add_note_empty_rejected (initSys [] 5) 5 "   ").1,
   (add_note_empty_rejected (initSys [] 5) 5 "   ").2 (by decide)⟩

/-! ## Claim C7: toggle with optimistic flip and revert

`handle_toggle_read` performs no optimistic update at all: it awaits the
PATCH response and only then rewrites the cache; on failure it only sets
the error message.  The end states match the claim, the optimistic
flip does not. -/

/-- C7 counterexample: immediately after `toggleRead(3)` is issued (the
Store not yet having responded — the mutation is outstanding), chapter 3
is still cached with `read = false`; the claimed optimistic flip to
`read = true` does not happen. -/
theorem toggle_no_optimistic_flip :
    (reach [mkCh 3 false] 5
        [Event.fetchOk, Event.toggleClick 3 false]).app.pendingMuts =
      [PendingMut.toggle [mkCh 3 false] 3 false]
    ∧ (reach [mkCh 3 false] 5
        [Event.fetchOk, Event.toggleClick 3 false]).app.chs = [mkCh 3 false] :=
  ⟨by decide, by decide⟩

/-- C7 amended: the toggle is applied without any optimistic flip.  On
Store failure the cache is untouched — the chapter keeps its original
`read` value — and the error is surfaced; on success the local record is
replaced by the Store's returned record (authoritative overwrite). -/
theorem toggle_read_reconciliation (s : Sys) (snap : List Chapter) (i : Nat)
    (curr : Bool) (rest : List PendingMut) (c : Chapter)
    (hm : s.app.pendingMuts = PendingMut.toggle snap i curr :: rest) :
    ((step s Event.mutFail).app.chs = s.app.chs
      ∧ (step s Event.mutFail).app.errMsg = some "Failed to toggle read")
    ∧ (findById s.server i = some c →
        (step s Event.mutOk).app.chs =
          s.app.chs.map (fun x => if x.id == i then { c with read := !curr } else x)) := by
  constructor
  · constructor <;> simp [step, hm]
  · intro hf
    simp [step, hm, patchChapterHandler, hf]

/-- Witness for the amended C7: chapter 3 starts `read = false`; a
failed toggle leaves it `read = false` with the error surfaced, and a
successful one overwrites it with the Store's record. -/
theorem toggle_read_reconciliation_witness :
    ((step (reach [mkCh 3 false] 5 [Event.fetchOk, Event.toggleClick 3 false])
          Event.mutFail).app.chs =
        (reach [mkCh 3 false] 5 [Event.fetchOk, Event.toggleClick 3 false]).app.chs
      ∧ (step (reach [mkCh 3 false] 5 [Event.fetchOk, Event.toggleClick 3 false])
          Event.mutFail).app.errMsg = some "Failed to toggle read")
    ∧ (step (reach [mkCh 3 false] 5 [Event.fetchOk, Event.toggleClick 3 false])
          Event.mutOk).app.chs =
        (reach [mkCh 3 false] 5
          [Event.fetchOk, Event.toggleClick 3 false]).app.chs.map
          (fun x => if x.id == 3 then { mkCh 3 false with read := !false } else x) := by
  have h := toggle_read_reconciliation
    (reach [mkCh 3 false] 5 [Event.fetchOk, Event.toggleClick 3 false])
    [mkCh 3 false] 3 false [] (mkCh 3 false) (by decide)
  exact ⟨h.1, h.2 (by decide)⟩

/-! ## Claim C8: fetch-failure atomicity

The failure handler itself touches nothing but `err_msg` and `load`,
but `pg` was already advanced when the fetch was triggered, so the next
trigger requests the page after the failed one: the failed page is
never retried. -/

/-- C8 counterexample: with three one-chapter pages, page 2's fetch
fails; the failure leaves the cache as after page 1, yet the next scroll
trigger requests page 3 — not page 2 as the claim's retry reading
requires. -/
theorem failed_page_skipped_on_retry :
    (reach [mkCh 1 false, mkCh 2 false, mkCh 3 false] 1
        [Event.fetchOk, Event.scroll, Event.fetchFail]).app.chs =
      (reach [mkCh 1 false, mkCh 2 false, mkCh 3 false] 1 [Event.fetchOk]).app.chs
    ∧ (reach [mkCh 1 false, mkCh 2 false, mkCh 3 false] 1
        [Event.fetchOk, Event.scroll, Event.fetchFail, Event.scroll]
        ).app.pendingFetches.map Prod.fst = [3] :=
  ⟨by decide, by decide⟩

/-- C8 amended: a failed page fetch surfaces the error, leaves the
accumulated cache, the page counter, `has_more` and the server store
exactly as they were, and resets the in-flight flag; the failed page
itself is however not re-requested, because `pg` had already advanced
when the fetch was triggered. -/
theorem fetch_failure_state (s : Sys) (p : Nat) (snap : List Chapter)
    (rest : List (Nat × List Chapter))
    (hp : s.app.pendingFetches = (p, snap) :: rest) :
    (step s Event.fetchFail).app.chs = s.app.chs
    ∧ (step s Event.fetchFail).app.pg = s.app.pg
    ∧ (step s Event.fetchFail).app.hasMore = s.app.hasMore
    ∧ (step s Event.fetchFail).app.errMsg = some "Failed to fetch chaps"
    ∧ (step s Event.fetchFail).app.load = false
    ∧ (step s Event.fetchFail).server = s.server := by
  refine ⟨?_, ?_, ?_, ?_, ?_, ?_⟩ <;> simp [step, hp]

/-- Witness for the amended C8 at the concrete failing page-2 fetch. -/
theorem fetch_failure_state_witness :
    (step (reach [mkCh 1 false, mkCh 2 false, mkCh 3 false] 1
        [Event.fetchOk, Event.scroll]) Event.fetchFail).app.chs =
      (reach [mkCh 1 false, mkCh 2 false, mkCh 3 false] 1
        [Event.fetchOk, Event.scroll]).app.chs
    ∧ (step (reach [mkCh 1 false, mkCh 2 false, mkCh 3 false] 1
        [Event.fetchOk, Event.scroll]) Event.fetchFail).app.errMsg =
      some "Failed to fetch chaps" := by
  have h := fetch_failure_state
    (reach [mkCh 1 false, mkCh 2 false, mkCh 3 false] 1
      [Event.fetchOk, Event.scroll]) 2 [mkCh 1 false] [] (by decide)
  exact ⟨h.1, h.2.2.2.1⟩

/-! ## Claim C9: unknown-chapter guard

Neither `handle_toggle_read` nor `add_note` checks the cache before
calling the Store: the request is always issued. -/

/-- C9 counterexample: id 99 is not in the accumulated cache, yet both
`toggleRead(99)` and `addNote(99, "x")` issue a Store call — the claim
requires that no Store call be performed. -/
theorem unknown_id_still_calls_store :
    hasId (reach [mkCh 1 false] 5 [Event.fetchOk]).app.chs 99 = false
    ∧ (reach [mkCh 1 false] 5
        [Event.fetchOk, Event.toggleClick 99 false]).app.pendingMuts =
      [PendingMut.toggle [mkCh 1 false] 99 false]
    ∧ (reach [mkCh 1 false] 5
        [Event.fetchOk, Event.noteClick 99 "x"]).app.pendingMuts =
      [PendingMut.note 99 "x"] :=
  ⟨by decide, by decide, by decide⟩

/-- C9 amended: the Store call is issued regardless; when the id is also
unknown to the Store, the Store answers 404, the client surfaces the
error, and cache, counter and store are left unchanged — for toggles and
notes alike. -/
theorem unknown_id_mutation_errors (s : Sys) (i : Nat) :
    (∀ snap curr rest,
      s.app.pendingMuts = PendingMut.toggle snap i curr :: rest →
      findById s.server i = none →
      (step s Event.mutOk).app.chs = s.app.chs
      ∧ (step s Event.mutOk).app.prog = s.app.prog
      ∧ (step s Event.mutOk).app.errMsg = some "Failed to toggle read"
      ∧ (step s Event.mutOk).server = s.server)
    ∧ (∀ txt rest,
      s.app.pendingMuts = PendingMut.note i txt :: rest →
      findById s.server i = none →
      (step s Event.mutOk).app.chs = s.app.chs
      ∧ (step s Event.mutOk).app.errMsg = some "Failed to add note"
      ∧ (step s Event.mutOk).server = s.server) := by
  constructor
  · intro snap curr rest hm hf
    refine ⟨?_, ?_, ?_, ?_⟩ <;> simp [step, hm, patchChapterHandler, hf]
  · intro txt rest hm hf
    refine ⟨?_, ?_, ?_⟩ <;> simp [step, hm, postNoteHandler, hf]

/-- Witness for the amended C9: toggling id 99 against a store that does
not know it surfaces the error and changes nothing. -/
theorem unknown_id_mutation_errors_witness :
    (step (reach [mkCh 1 false] 5 [Event.fetchOk, Event.toggleClick 99 false])
        Event.mutOk).app.chs =
      (reach [mkCh 1 false] 5 [Event.fetchOk, Event.toggleClick 99 false]).app.chs
    ∧ (step (reach [mkCh 1 false] 5 [Event.fetchOk, Event.toggleClick 99 false])
        Event.mutOk).app.errMsg = some "Failed to toggle read" := by
  have h := (unknown_id_mutation_errors
    (reach [mkCh 1 false] 5 [Event.fetchOk, Event.toggleClick 99 false]) 99).1
    [mkCh 1 false] false [] (by decide) (by decide)
  exact ⟨h.1, h.2.2.1⟩

/-! ## Claim C6: hasMore termination -/

/-- Every page response is the corresponding slice of the store. -/
theorem listChaptersHandler_eq (store : List Chapter) (p l : Nat) :
    listChaptersHandler store p l =
      ((store.drop ((p - 1) * l)).take l, store.length) := by
  unfold listChaptersHandler
  by_cases h : (p - 1) * l < store.length
  · simp [h]
  · have hd : store.drop ((p - 1) * l) = [] := List.drop_eq_nil_iff.mpr (by omega)
    simp [h, hd]

/-- With unique ids, a later slice shares no id with an earlier one. -/
theorem hasId_take_of_mem_drop {server : List Chapter}
    (hnd : (server.map Chapter.id).Nodup) (a b : Nat) :
    ∀ c ∈ (server.drop a).take b, hasId (server.take a) c.id = false := by
  intro c hc
  rw [hasId_eq_false_iff]
  intro hmem
  have hc2 : c ∈ server.drop a := List.mem_of_mem_take hc
  have h2 : c.id ∈ (server.drop a).map Chapter.id := List.mem_map_of_mem _ hc2
  have hnd2 := hnd
  rw [← List.take_append_drop a server, List.map_append] at hnd2
  exact (List.nodup_append.mp hnd2).2.2 hmem h2

/-- Merging the next slice into the accumulated slice extends the take. -/
theorem mergeChs_take_drop {server : List Chapter} (a b : Nat)
    (hnd : (server.map Chapter.id).Nodup) :
    mergeChs (server.take a) ((server.drop a).take b) = server.take (a + b) := by
  rw [mergeChs_eq_append (hasId_take_of_mem_drop hnd a b), List.take_add]

/-- A later slice's filter against an earlier accumulated slice keeps
everything. -/
theorem filter_new_slice {server : List Chapter} (a b : Nat)
    (hnd : (server.map Chapter.id).Nodup) :
    ((server.drop a).take b).filter
      (fun c => !hasId (server.take a) c.id) = (server.drop a).take b := by
  rw [List.filter_eq_self]
  intro c hc
  rw [hasId_take_of_mem_drop hnd a b c hc]
  rfl

/-- The sequential pagination run: the mount fetch, then one
scroll-trigger-plus-awaited-resolution per round. -/
def seqFetch (server : List Chapter) (limit : Nat) : Nat → Sys
  | 0 => initSys server limit
  | m + 1 => step (step (seqFetch server limit m) Event.scroll) Event.fetchOk


/-- Field equations for a granted scroll trigger. -/
theorem step_scroll_fields (s : Sys)
    (hg : (s.app.hasMore && !s.app.load) = true) :
    (step s Event.scroll).server = s.server
    ∧ (step s Event.scroll).limit = s.limit
    ∧ (step s Event.scroll).app.chs = s.app.chs
    ∧ (step s Event.scroll).app.pg = s.app.pg + 1
    ∧ (step s Event.scroll).app.load = true
    ∧ (step s Event.scroll).app.hasMore = s.app.hasMore
    ∧ (step s Event.scroll).app.pendingFetches =
        s.app.pendingFetches ++ [(s.app.pg + 1, s.app.chs)] := by
  refine ⟨?_, ?_, ?_, ?_, ?_, ?_, ?_⟩ <;> simp [step, hg]

/-- Field equations for the resolution of an outstanding page fetch. -/
theorem step_fetchOk_fields (s : Sys) (p : Nat) (snap : List Chapter)
    (rest : List (Nat × List Chapter))
    (hp : s.app.pendingFetches = (p, snap) :: rest) :
    (step s Event.fetchOk).server = s.server
    ∧ (step s Event.fetchOk).limit = s.limit
    ∧ (step s Event.fetchOk).app.chs =
        mergeChs s.app.chs ((s.server.drop ((p - 1) * s.limit)).take s.limit)
    ∧ (step s Event.fetchOk).app.hasMore =
        decide (snap.length +
          (((s.server.drop ((p - 1) * s.limit)).take s.limit).filter
            (fun c => !hasId snap c.id)).length < s.server.length)
    ∧ (step s Event.fetchOk).app.load = false
    ∧ (step s Event.fetchOk).app.pendingFetches = rest
    ∧ (step s Event.fetchOk).app.pg = s.app.pg := by
  refine ⟨?_, ?_, ?_, ?_, ?_, ?_, ?_⟩ <;> simp [step, hp, listChaptersHandler_eq]

/-- After `m ≥ 1` awaited fetches the cache is the first `m * limit`
chapters, `has_more` says whether more remain, the gate is idle, and the
page counter (while pages remain) is `m`. -/
theorem seqFetch_spec (server : List Chapter) (limit : Nat)
    (hnd : (server.map Chapter.id).Nodup) :
    ∀ m : Nat, 0 < m →
      (seqFetch server limit m).server = server
      ∧ (seqFetch server limit m).limit = limit
      ∧ (seqFetch server limit m).app.chs = server.take (m * limit)
      ∧ (seqFetch server limit m).app.hasMore =
          decide (m * limit < server.length)
      ∧ (seqFetch server limit m).app.load = false
      ∧ (seqFetch server limit m).app.pendingFetches = []
      ∧ (m * limit < server.length → (seqFetch server limit m).app.pg = m) := by
  intro m
  induction m with
  | zero => intro h; exact (Nat.lt_irrefl 0 h).elim
  | succ m ih =>
      intro _hs
      rcases Nat.eq_zero_or_pos m with rfl | hm
      · have h0 : step (initSys server limit) Event.scroll = initSys server limit := by
          simp [step, initSys]
        have h1 : seqFetch server limit 1 = step (initSys server limit) Event.fetchOk := by
          show step (step (seqFetch server limit 0) Event.scroll) Event.fetchOk = _
          rw [show seqFetch server limit 0 = initSys server limit from rfl, h0]
        obtain ⟨hB1, hB2, hB3, hB4, hB5, hB6, hB7⟩ :=
          step_fetchOk_fields (initSys server limit) 1 [] [] rfl
        refine ⟨?_, ?_, ?_, ?_, ?_, ?_, ?_⟩ <;> rw [h1]
        · rw [hB1]; rfl
        · rw [hB2]; rfl
        · rw [hB3]
          show mergeChs [] ((server.drop ((1 - 1) * limit)).take limit) = _
          rw [mergeChs_nil_left]
          simp
        · rw [hB4]
          show decide ((List.nil.length : Nat) +
              (((server.drop ((1 - 1) * limit)).take limit).filter
                (fun c => !hasId [] c.id)).length < server.length) = _
          simp only [Nat.sub_self, Nat.zero_mul, List.drop_zero, List.length_nil]
          have hfil : (server.take limit).filter (fun c => !hasId [] c.id) =
              server.take limit := by
            rw [List.filter_eq_self]; intro c _; rfl
          rw [hfil, decide_eq_decide, List.length_take]
          omega
        · rw [hB5]
        · rw [hB6]
        · intro _hlt; rw [hB7]; rfl
      · obtain ⟨ihsrv, ihlim, ihchs, ihhm, ihload, ihpend, ihpg⟩ := ih hm
        by_cases hM : m * limit < server.length
        · have hana : (seqFetch server limit m).app.hasMore = true := by
            rw [ihhm]; exact decide_eq_true hM
          have hpg : (seqFetch server limit m).app.pg = m := ihpg hM
          have hguard : ((seqFetch server limit m).app.hasMore
              && !(seqFetch server limit m).app.load) = true := by
            rw [hana, ihload]; rfl
          obtain ⟨hA1, hA2, hA3, hA4, hA5, hA6, hA7⟩ :=
            step_scroll_fields (seqFetch server limit m) hguard
          rw [ihpend, hpg, ihchs, List.nil_append] at hA7
          obtain ⟨hB1, hB2, hB3, hB4, hB5, hB6, hB7⟩ :=
            step_fetchOk_fields (step (seqFetch server limit m) Event.scroll)
              (m + 1) (server.take (m * limit)) [] hA7
          have hstep2 : seqFetch server limit (m + 1) =
              step (step (seqFetch server limit m) Event.scroll) Event.fetchOk := rfl
          rw [hA1, ihsrv] at hB1
          rw [hA2, ihlim] at hB2
          refine ⟨?_, ?_, ?_, ?_, ?_, ?_, ?_⟩ <;> rw [hstep2]
          · rw [hB1]
          · rw [hB2]
          · rw [hB3, hA3, ihchs, hA1, ihsrv, hA2, ihlim]
            simp only [Nat.add_sub_cancel]
            rw [mergeChs_take_drop (m * limit) limit hnd, Nat.succ_mul]
          · rw [hB4, hA1, ihsrv, hA2, ihlim]
            simp only [Nat.add_sub_cancel]
            rw [filter_new_slice (m * limit) limit hnd]
            rw [decide_eq_decide, Nat.succ_mul]
            have hlen1 : (server.take (m * limit)).length = m * limit := by
              rw [List.length_take]; omega
            rw [hlen1, List.length_take, List.length_drop]
            omega
          · rw [hB5]
          · rw [hB6]
          · intro _hlt
            rw [hB7, hA4, hpg]
        · have hana : (seqFetch server limit m).app.hasMore = false := by
            rw [ihhm]; exact decide_eq_false hM
          have hguard : ((seqFetch server limit m).app.hasMore
              && !(seqFetch server limit m).app.load) = false := by
            rw [hana]; rfl
          have hs1 : step (seqFetch server limit m) Event.scroll =
              seqFetch server limit m := by
            simp [step, hguard]
          have hs2 : seqFetch server limit (m + 1) = seqFetch server limit m := by
            show step (step (seqFetch server limit m) Event.scroll) Event.fetchOk = _
            rw [hs1]
            simp [step, ihpend]
          rw [hs2]
          have hmono : m * limit ≤ (m + 1) * limit :=
            Nat.mul_le_mul_right _ (by omega)
          have htake : server.take (m * limit) = server :=
            List.take_of_length_le (by omega)
          have htake2 : server.take ((m + 1) * limit) = server :=
            List.take_of_length_le (by omega)
          refine ⟨ihsrv, ihlim, ?_, ?_, ihload, ihpend, ?_⟩
          · rw [ihchs, htake, htake2]
          · rw [ihhm, decide_eq_decide]
            omega
          · intro hlt
            omega

/-- Arithmetic of the ceiling division `(N + l - 1) / l`. -/
theorem ceil_div_spec (N l : Nat) (hl : 0 < l) (hN : 0 < N) :
    N ≤ ((N + l - 1) / l) * l
    ∧ (∀ j, j < (N + l - 1) / l → j * l < N)
    ∧ 0 < (N + l - 1) / l := by
  have hq : (N + l - 1) / l = (N - 1) / l + 1 := by
    have he : N + l - 1 = (N - 1) + l := by omega
    rw [he, Nat.add_div_right _ hl]
  refine ⟨?_, ?_, ?_⟩
  · rw [hq]
    have h2 := (Nat.div_lt_iff_lt_mul hl).mp (Nat.lt_succ_self ((N - 1) / l))
    calc N = N - 1 + 1 := by omega
    _ ≤ ((N - 1) / l + 1) * l := Nat.succ_le_of_lt h2
  · intro j hj
    rw [hq] at hj
    have hj2 : j ≤ (N - 1) / l := by omega
    have h3 : j * l ≤ (N - 1) / l * l := Nat.mul_le_mul_right _ hj2
    have h4 : (N - 1) / l * l ≤ N - 1 := Nat.div_mul_le_self _ _
    calc j * l ≤ N - 1 := le_trans h3 h4
    _ < N := by omega
  · rw [hq]; exact Nat.succ_pos _

/-- C6: for a store of `N` chapters and page size `k`, the sequential
awaited pagination run reaches `has_more = false` after exactly
`⌈N / k⌉ = (N + k - 1) / k` fetches with the whole store accumulated
(`has_more` is still true after every earlier fetch), and both further
triggers and further resolutions are no-ops. -/
theorem hasMore_termination (server : List Chapter) (limit : Nat)
    (hl : 0 < limit) (hN : 0 < server.length)
    (hnd : (server.map Chapter.id).Nodup) :
    (seqFetch server limit
        ((server.length + limit - 1) / limit)).app.hasMore = false
    ∧ (seqFetch server limit
        ((server.length + limit - 1) / limit)).app.chs = server
    ∧ (∀ j, 0 < j → j < (server.length + limit - 1) / limit →
        (seqFetch server limit j).app.hasMore = true)
    ∧ step (seqFetch server limit ((server.length + limit - 1) / limit))
        Event.scroll =
      seqFetch server limit ((server.length + limit - 1) / limit)
    ∧ step (seqFetch server limit ((server.length + limit - 1) / limit))
        Event.fetchOk =
      seqFetch server limit ((server.length + limit - 1) / limit) := by
  obtain ⟨hc1, hc2, hc3⟩ := ceil_div_spec server.length limit hl hN
  obtain ⟨hsrv, hlim, hchs, hhm, hload, hpend, hpg⟩ :=
    seqFetch_spec server limit hnd _ hc3
  have hfalse : (seqFetch server limit
      ((server.length + limit - 1) / limit)).app.hasMore = false := by
    rw [hhm]; exact decide_eq_false (by omega)
  refine ⟨hfalse, ?_, ?_, ?_, ?_⟩
  · rw [hchs]; exact List.take_of_length_le hc1
  · intro j hj0 hjlt
    obtain ⟨-, -, -, hhmj, -, -, -⟩ := seqFetch_spec server limit hnd j hj0
    rw [hhmj]; exact decide_eq_true (hc2 j hjlt)
  · have hg : ((seqFetch server limit
        ((server.length + limit - 1) / limit)).app.hasMore
        && !(seqFetch server limit
          ((server.length + limit - 1) / limit)).app.load) = false := by
      rw [hfalse]; rfl
    simp [step, hg]
  · simp [step, hpend]

/-- Witness for C6: three chapters, page size two — `has_more` falls
after the second fetch with all chapters cached, a third trigger does
nothing, and the intermediate state still had `has_more = true`. -/
theorem hasMore_termination_witness :
    (seqFetch [mkCh 1 false, mkCh 2 false, mkCh 3 false] 2 2).app.hasMore = false
    ∧ (seqFetch [mkCh 1 false, mkCh 2 false, mkCh 3 false] 2 2).app.chs =
        [mkCh 1 false, mkCh 2 false, mkCh 3 false]
    ∧ (seqFetch [mkCh 1 false, mkCh 2 false, mkCh 3 false] 2 1).app.hasMore = true
    ∧ step (seqFetch [mkCh 1 false, mkCh 2 false, mkCh 3 false] 2 2)
        Event.scroll =
      seqFetch [mkCh 1 false, mkCh 2 false, mkCh 3 false] 2 2 := by
  have h := hasMore_termination [mkCh 1 false, mkCh 2 false, mkCh 3 false] 2
    (by decide) (by decide) (by decide)
  exact ⟨h.1, h.2.1, h.2.2.1 1 (by decide) (by decide), h.2.2.2.1⟩

/-! ## Claim C10: server mutation frame effects -/

/-- A map that fixes every element of a list is the identity on it. -/
theorem map_eq_self_of_fixes {f : Chapter → Chapter} :
    ∀ {l : List Chapter}, (∀ x ∈ l, f x = x) → l.map f = l := by
  intro l
  induction l with
  | nil => intro _; rfl
  | cons c cs ih =>
      intro h
      rw [List.map_cons, h c (by simp), ih (fun x hx => h x (by simp [hx]))]

/-- With unique ids, mutating the first matching entry is the same as
mapping the rewrite over the whole store. -/
theorem setReadFirst_eq_map (i : Nat) (b : Bool) :
    ∀ store : List Chapter, (store.map Chapter.id).Nodup →
      setReadFirst store i b =
        store.map (fun x => if x.id == i then { x with read := b } else x) := by
  intro store
  induction store with
  | nil => intro _; rfl
  | cons c cs ih =>
      intro hnd
      simp only [List.map_cons, List.nodup_cons] at hnd
      obtain ⟨hnotin, hndcs⟩ := hnd
      show (if c.id == i then { c with read := b } :: cs
            else c :: setReadFirst cs i b) =
        (if c.id == i then { c with read := b } else c) ::
          cs.map (fun x => if x.id == i then { x with read := b } else x)
      by_cases h : c.id == i
      · rw [if_pos h, if_pos h]
        have hc : c.id = i := by simpa using h
        have hfix : ∀ x ∈ cs, (if x.id == i then { x with read := b } else x) = x := by
          intro x hxmem
          have hne : (x.id == i) = false := by
            rw [beq_eq_false_iff_ne]
            intro hxi
            exact hnotin (hc ▸ hxi ▸ List.mem_map_of_mem Chapter.id hxmem)
          rw [if_neg (by simp [hne])]
        rw [map_eq_self_of_fixes hfix]
      · rw [if_neg h, if_neg h, ih hndcs]

/-- Note-appending analogue of `setReadFirst_eq_map`. -/
theorem pushNoteFirst_eq_map (i : Nat) (t : String) :
    ∀ store : List Chapter, (store.map Chapter.id).Nodup →
      pushNoteFirst store i t =
        store.map (fun x => if x.id == i then { x with notes := x.notes ++ [t] } else x) := by
  intro store
  induction store with
  | nil => intro _; rfl
  | cons c cs ih =>
      intro hnd
      simp only [List.map_cons, List.nodup_cons] at hnd
      obtain ⟨hnotin, hndcs⟩ := hnd
      show (if c.id == i then { c with notes := c.notes ++ [t] } :: cs
            else c :: pushNoteFirst cs i t) =
        (if c.id == i then { c with notes := c.notes ++ [t] } else c) ::
          cs.map (fun x => if x.id == i then { x with notes := x.notes ++ [t] } else x)
      by_cases h : c.id == i
      · rw [if_pos h, if_pos h]
        have hc : c.id = i := by simpa using h
        have hfix : ∀ x ∈ cs,
            (if x.id == i then { x with notes := x.notes ++ [t] } else x) = x := by
          intro x hxmem
          have hne : (x.id == i) = false := by
            rw [beq_eq_false_iff_ne]
            intro hxi
            exact hnotin (hc ▸ hxi ▸ List.mem_map_of_mem Chapter.id hxmem)
          rw [if_neg (by simp [hne])]
        rw [map_eq_self_of_fixes hfix]
      · rw [if_neg h, if_neg h, ih hndcs]

/-- C10: on a store with unique ids, the PATCH handler assigns exactly
the supplied boolean to the matching chapter's `read` — every other
field and every other chapter untouched — and responds with the updated
record; the note handler appends exactly one note likewise; an unknown
id leaves the store entirely unchanged and yields the 404 response. -/
theorem server_mutation_frame (store : List Chapter) (i : Nat) (b : Bool)
    (txt : String) (c : Chapter)
    (hnd : (store.map Chapter.id).Nodup) :
    (findById store i = some c →
      patchChapterHandler store i b =
        (store.map (fun x => if x.id == i then { x with read := b } else x),
         some { c with read := b }))
    ∧ (findById store i = some c →
      postNoteHandler store i txt =
        (store.map
          (fun x => if x.id == i then { x with notes := x.notes ++ [txt] } else x),
         some { c with notes := c.notes ++ [txt] }))
    ∧ (findById store i = none →
      patchChapterHandler store i b = (store, none)
      ∧ postNoteHandler store i txt = (store, none)) := by
  refine ⟨?_, ?_, ?_⟩
  · intro hf
    simp [patchChapterHandler, hf, setReadFirst_eq_map i b store hnd]
  · intro hf
    simp [postNoteHandler, hf, pushNoteFirst_eq_map i txt store hnd]
  · intro hf
    constructor
    · simp [patchChapterHandler, hf]
    · simp [postNoteHandler, hf]

/-- Witness for C10 at a two-chapter store: patch chapter 1, append a
note to chapter 1, and observe the 404 on id 9. -/
theorem server_mutation_frame_witness :
    patchChapterHandler [mkCh 1 false, mkCh 2 true] 1 true =
      ([mkCh 1 false, mkCh 2 true].map
        (fun x => if x.id == 1 then { x with read := true } else x),
       some { mkCh 1 false with read := true })
    ∧ postNoteHandler [mkCh 1 false, mkCh 2 true] 1 "x" =
      ([mkCh 1 false, mkCh 2 true].map
        (fun x => if x.id == 1 then { x with notes := x.notes ++ ["x"] } else x),
       some { mkCh 1 false with notes := ["x"] })
    ∧ patchChapterHandler [mkCh 1 false, mkCh 2 true] 9 true =
      ([mkCh 1 false, mkCh 2 true], none) := by
  have h := server_mutation_frame [mkCh 1 false, mkCh 2 true] 1 true "x"
    (mkCh 1 false) (by decide)
  have h9 := server_mutation_frame [mkCh 1 false, mkCh 2 true] 9 true "x"
    (mkCh 1 false) (by decide)
  exact ⟨h.1 (by decide), h.2.1 (by decide), (h9.2.2 (by decide)).1⟩
